import Mathlib

/-!
Verification of the extractive-summarization engine of this repository
(`app/utils/models/textsum_client.py` and `app/utils/models/youtube_client.py`)
against its natural-language specification.

The Python code is shallowly embedded: strings are Lean `String`s manipulated
through their character lists, Python `float` arithmetic on scores and averages
is modelled exactly over `ℚ`, integer truncation of non-negative quantities is
the floor (`ratFloorNat`), and the one fallible operation (unguarded list indexing in
transcript-mode sampling) returns `Option`.  Character classes of the regular
expressions are modelled over their ASCII meaning (`\d` = `Char.isDigit`,
`\w` = alphanumeric or underscore, `\s` = ASCII whitespace).
-/

/-- ASCII whitespace as matched by Python's `str.strip`/`str.split()`/`\s`:
space, tab, newline, carriage return, vertical tab, form feed. -/
def isPySpace (c : Char) : Bool :=
  c = ' ' || c = '\t' || c = '\n' || c = '\r' || c = '\x0b' || c = '\x0c'

/-- Python `str.strip()` on a character list: drop whitespace at both ends. -/
def trimL (l : List Char) : List Char :=
  (l.dropWhile isPySpace).rdropWhile isPySpace

/-- Python `str.strip()`. -/
def pyStrip (s : String) : String := ⟨trimL s.data⟩

/-- Python `str.lower()` (ASCII case folding). -/
def pyLower (s : String) : String := ⟨s.data.map Char.toLower⟩

/-!
Exact rational arithmetic, written on raw numerators and denominators via
`mkRat`.  Batteries marks `Rat.add`, `Rat.sub`, `Rat.mul` and `Rat.inv` as
irreducible, which blocks kernel evaluation of concrete witnesses; these
equivalent operations (proved equal to the standard ones below) keep every
definition evaluable by `decide`.
-/

/-- Exact rational addition (equals `a + b`, see `qAdd_eq`). -/
def qAdd (a b : ℚ) : ℚ := mkRat (a.num * b.den + b.num * a.den) (a.den * b.den)

/-- Exact rational subtraction (equals `a - b`, see `qSub_eq`). -/
def qSub (a b : ℚ) : ℚ := mkRat (a.num * b.den - b.num * a.den) (a.den * b.den)

/-- Exact rational multiplication (equals `a * b`, see `qMul_eq`). -/
def qMul (a b : ℚ) : ℚ := mkRat (a.num * b.num) (a.den * b.den)

/-- Exact rational division (`qDiv a 0 = 0`, matching the `a / 0 = 0`
convention; division by zero is unreachable on the code paths embedded here). -/
def qDiv (a b : ℚ) : ℚ := mkRat (a.num * Int.sign b.num * b.den) (a.den * b.num.natAbs)

/-- Python `int(...)` truncation of a non-negative rational: the floor,
computed directly from the numerator and denominator. -/
def ratFloorNat (q : ℚ) : ℕ := q.num.toNat / q.den

/-- The maximal runs of consecutive characters satisfying `p`, in order.
`runs p` models both `re.findall(r'\d+', ·)` (with `p = Char.isDigit`) and the
non-empty fragments produced by splitting on the complement of `p`. -/
def runs (p : Char → Bool) : List Char → List (List Char)
  | [] => []
  | c :: cs =>
    let rest := runs p cs
    if p c then
      match cs with
      | [] => [[c]]
      | d :: _ =>
        if p d then
          match rest with
          | r :: rs => (c :: r) :: rs
          | [] => [[c]]
        else [c] :: rest
    else rest

/-- Python `str.split()` (split on whitespace runs, discarding empties). -/
def pySplitWs (s : String) : List String :=
  (runs (fun c => !isPySpace c) s.data).map (fun cs => (⟨cs⟩ : String))

/-- Digit-string to the integer Python `int(...)` parses (leading zeros allowed). -/
def digitsToNat (l : List Char) : ℕ :=
  l.foldl (fun n c => 10 * n + (c.toNat - 48)) 0

/-- `parse_summary_length_text` from `textsum_client.py`: named lengths are
compared after `str.lower()` (no trimming), else the first run of digits found
by `re.findall(r'\d+', ·)` is parsed, else the default 200. -/
def parse_summary_length_text (summary_length : String) : ℕ :=
  if pyLower summary_length = "short" then 75
  else if pyLower summary_length = "medium" then 200
  else if pyLower summary_length = "long" then 400
  else
    match runs Char.isDigit summary_length.data with
    | n :: _ => digitsToNat n
    | [] => 200

/-- The first maximal run of characters satisfying `p`, written as the
specification describes it (scan to the first such character, take the run),
independently of the `runs`-based embedding of `re.findall`. -/
def firstRun (p : Char → Bool) : List Char → Option (List Char)
  | [] => none
  | c :: cs => if p c then some (c :: cs.takeWhile p) else firstRun p cs

/-- The first maximal contiguous run of decimal digits in a string. -/
def firstDigitRun (l : List Char) : Option (List Char) := firstRun Char.isDigit l

/-- The spec's reference resolver, trimming included: "Trim and
lowercase-compare against short/medium/long; else the first maximal contiguous
run of decimal digits anywhere; else 200." -/
def resolveSpec (spec : String) : ℕ :=
  if pyLower (pyStrip spec) = "short" then 75
  else if pyLower (pyStrip spec) = "medium" then 200
  else if pyLower (pyStrip spec) = "long" then 400
  else
    match firstDigitRun spec.data with
    | some n => digitsToNat n
    | none => 200

/-- The spec's reference resolver with the (unimplemented) trimming removed. -/
def resolveSpecNoTrim (spec : String) : ℕ :=
  if pyLower spec = "short" then 75
  else if pyLower spec = "medium" then 200
  else if pyLower spec = "long" then 400
  else
    match firstDigitRun spec.data with
    | some n => digitsToNat n
    | none => 200

/-- `re.sub(r'\s+', ' ', ·)`: replace each maximal whitespace run by one space. -/
def collapseWs : List Char → List Char
  | [] => []
  | [c] => if isPySpace c then [' '] else [c]
  | a :: b :: rest =>
    if isPySpace a && isPySpace b then collapseWs (b :: rest)
    else (if isPySpace a then ' ' else a) :: collapseWs (b :: rest)

/-- Characters kept by `re.sub(r'[^\w\s\.\,\!\?\;\:\-\(\)]', '', ·)`:
word characters (`\w` = alphanumeric or underscore), whitespace, and the
retained punctuation. -/
def isKeptChar (c : Char) : Bool :=
  c.isAlphanum || c = '_' || isPySpace c ||
    c = '.' || c = ',' || c = '!' || c = '?' || c = ';' || c = ':' ||
    c = '-' || c = '(' || c = ')'

/-- `clean_text_content` from `textsum_client.py`: strip, collapse whitespace
runs to single spaces, then delete every character outside the kept class. -/
def clean_text_content (text_content : String) : String :=
  ⟨(collapseWs (trimL text_content.data)).filter isKeptChar⟩

/-- `split_into_sentences` from `textsum_client.py`:
`re.split(r'[.!?]+', text)`, then strip each fragment and drop the empty ones.
Splitting on delimiter runs and dropping empties is the same as taking the
maximal runs of non-delimiter characters. -/
def split_into_sentences (text : String) : List String :=
  ((runs (fun c => !(c = '.' || c = '!' || c = '?')) text.data).map
      (fun cs => (⟨trimL cs⟩ : String))).filter (fun s => s ≠ "")

/-- The word-frequency table of `score_sentences`:
`Counter(word.lower() for word in words if len(word) > 3)`, queried at `w`. -/
def wordFreq (words : List String) (w : String) : ℕ :=
  ((words.filter (fun x => 3 < x.length)).map pyLower).count w

/-- `score_sentences` from `textsum_client.py`: for each sentence (with its
`enumerate` index) sum the table entries of its lowercased tokens, add a 20%
bonus for the first/last sentence, subtract a 30% penalty below 5 tokens. -/
def score_sentences (sentences : List String) (words : List String) : List ℚ :=
  sentences.enum.map (fun p =>
    let sentence_words := pySplitWs (pyLower p.2)
    let freq_score : ℕ := (sentence_words.map (wordFreq words)).sum
    let position_bonus : ℚ :=
      if p.1 = 0 ∨ p.1 = sentences.length - 1 then qMul (freq_score : ℚ) (mkRat 1 5)
      else 0
    let length_penalty : ℚ :=
      if sentence_words.length < 5 then qMul (freq_score : ℚ) (mkRat 3 10) else 0
    qSub (qAdd (freq_score : ℚ) position_bonus) length_penalty)

/-- The comparator of `scored_sentences.sort(key=lambda x: x[1], reverse=True)`:
`x` may precede `y` iff `x`'s score is at least `y`'s.  Python's sort is
stable, so the embedding uses a stable insertion sort with this relation. -/
def scoreGE (x y : String × ℚ) : Prop := y.2 ≤ x.2

instance : DecidableRel scoreGE := fun x y => inferInstanceAs (Decidable (y.2 ≤ x.2))

instance : IsTotal (String × ℚ) scoreGE := ⟨fun x y => le_total y.2 x.2⟩

instance : IsTrans (String × ℚ) scoreGE := ⟨fun _ _ _ h1 h2 => le_trans h2 h1⟩

/-- Text-mode sentence list. -/
def tmSentences (text : String) : List String := split_into_sentences text

/-- Text-mode word list (`words = text.split()`). -/
def tmWords (text : String) : List String := pySplitWs text

/-- `sentence_scores = score_sentences(sentences, words)`. -/
def tmScores (text : String) : List ℚ := score_sentences (tmSentences text) (tmWords text)

/-- `scored_sentences = list(zip(sentences, sentence_scores))`. -/
def tmScored (text : String) : List (String × ℚ) := (tmSentences text).zip (tmScores text)

/-- `scored_sentences.sort(key=lambda x: x[1], reverse=True)` (stable). -/
def tmSorted (text : String) : List (String × ℚ) := List.insertionSort scoreGE (tmScored text)

/-- `target_sentences = max(1, int(target_words / avg_words_per_sentence))`
with `avg_words_per_sentence = len(words) / len(sentences)` (exact rational
division; `int` truncation of a non-negative value is the floor). -/
def tmTargetCount (text : String) (target_words : ℕ) : ℕ :=
  max 1 (ratFloorNat (qDiv (target_words : ℚ)
    (qDiv ((tmWords text).length : ℚ) ((tmSentences text).length : ℚ))))

/-- `selected_sentences = [sent for sent, score in scored_sentences[:target_sentences]]`. -/
def tmSelected (text : String) (target_words : ℕ) : List String :=
  ((tmSorted text).take (tmTargetCount text target_words)).map Prod.fst

/-- The re-emission loop: walk the original sentence sequence and keep each
sentence contained in the selected list. -/
def tmSummarySentences (text : String) (target_words : ℕ) : List String :=
  (tmSentences text).filter (fun s => (tmSelected text target_words).contains s)

/-- `generate_summary_text` from `textsum_client.py`. -/
def generate_summary_text (text : String) (target_words : ℕ) : String :=
  if (tmSentences text).length ≤ 2 then text
  else if (tmWords text).length ≤ target_words then text
  else String.intercalate " " (tmSummarySentences text target_words)

/-- `summarize_text_content` from `textsum_client.py`.  The `except` branch is
unreachable in the embedding: every helper is total. -/
def summarize_text_content (text_content : String) (summary_length : String) : String :=
  if text_content = "" ∨ pyStrip text_content = "" then "Error: No text content provided"
  else generate_summary_text (clean_text_content text_content)
    (parse_summary_length_text summary_length)

/-- Prepend a character to the first fragment of a split result. -/
def consHead (c : Char) : List (List Char) → List (List Char)
  | [] => [[c]]
  | s :: ss => (c :: s) :: ss

/-- Python `text.split('. ')` on a character list: left-to-right,
non-overlapping matches of the two-character separator. -/
def pySplitDotSpace : List Char → List (List Char)
  | [] => [[]]
  | [c] => [[c]]
  | c :: d :: rest =>
    if c = '.' ∧ d = ' ' then [] :: pySplitDotSpace rest
    else consHead c (pySplitDotSpace (d :: rest))

/-- Transcript-mode sentence list: `sentences = text.split('. ')`. -/
def ytSentences (text : String) : List String :=
  (pySplitDotSpace text.data).map (fun cs => (⟨cs⟩ : String))

/-- Transcript-mode `target_sentences`, computed exactly as in text-mode. -/
def ytTargetCount (text : String) (target_words : ℕ) : ℕ :=
  max 1 (ratFloorNat (qDiv (target_words : ℚ)
    (qDiv ((pySplitWs text).length : ℚ) ((ytSentences text).length : ℚ))))

/-- The fallible list comprehension `[f(i) for i in l]` where each element
access may fail: `none` models an uncaught `IndexError`. -/
def traverseOption {α β : Type} (f : α → Option β) : List α → Option (List β)
  | [] => some []
  | a :: as =>
    match f a, traverseOption f as with
    | some b, some bs => some (b :: bs)
    | _, _ => none

/-- Python `summary.endswith('.')`. -/
def pyEndsWithDot (s : String) : Bool := s.data.getLast? = some '.'

/-- `generate_summary_youtube` from `youtube_client.py`.  The unguarded index
access `sentences[i * step]` is embedded as `List.get?` inside
`traverseOption`; a `none` result models the `IndexError` the Python code
would raise. -/
def generate_summary_youtube (text : String) (target_words : ℕ) : Option String :=
  let sentences := ytSentences text
  if sentences.length ≤ 3 then some text
  else if (pySplitWs text).length ≤ target_words then some text
  else
    let target_sentences := ytTargetCount text target_words
    let selected? : Option (List String) :=
      if target_sentences < sentences.length then
        let step := sentences.length / target_sentences
        traverseOption (fun i => sentences[i * step]?) (List.range target_sentences)
      else some (sentences.take target_sentences)
    match selected? with
    | none => none
    | some selected_sentences =>
      let summary := String.intercalate ". " selected_sentences
      some (if pyEndsWithDot summary then summary else summary ++ ".")

/-- The frequency score of one sentence: the sum of the table lookups of its
lowercased whitespace-split tokens. -/
def sentFreq (words : List String) (sentence : String) : ℕ :=
  ((pySplitWs (pyLower sentence)).map (wordFreq words)).sum

/-- The specification's scoring formula for the sentence at index `i`, in
standard rational arithmetic: `freq_score + position_bonus - length_penalty`,
with `position_bonus = freq_score * 0.2` exactly at the first or last index
and `length_penalty = freq_score * 0.3` exactly below 5 tokens. -/
def specScore (sentences words : List String) (i : ℕ) : ℚ :=
  (sentFreq words (sentences.getD i "") : ℚ)
  + (if i = 0 ∨ i = sentences.length - 1
      then (sentFreq words (sentences.getD i "") : ℚ) * 0.2 else 0)
  - (if (pySplitWs (pyLower (sentences.getD i ""))).length < 5
      then (sentFreq words (sentences.getD i "") : ℚ) * 0.3 else 0)

/-- One-step unfolding of `runs` on a cons cell. -/
lemma runs_cons (p : Char → Bool) (c : Char) (cs : List Char) :
    runs p (c :: cs) =
      if p c then
        match cs with
        | [] => [[c]]
        | d :: _ =>
          if p d then
            match runs p cs with
            | r :: rs => (c :: r) :: rs
            | [] => [[c]]
          else [c] :: runs p cs
      else runs p cs := rfl

/-- The head of the `re.findall`-style run list is the spec's "first maximal
contiguous run". -/
lemma head?_runs (p : Char → Bool) :
    ∀ cs : List Char, (runs p cs).head? = firstRun p cs := by
  intro cs
  induction cs with
  | nil => rfl
  | cons c cs ih =>
    by_cases hc : p c
    · cases cs with
      | nil => simp [runs_cons, firstRun, hc]
      | cons d ds =>
        by_cases hd : p d
        · cases hrest : runs p (d :: ds) with
          | nil =>
            rw [hrest] at ih
            simp [firstRun, hd] at ih
          | cons r rs =>
            rw [hrest] at ih
            simp only [List.head?_cons, firstRun, hd, if_pos, Option.some.injEq] at ih
            rw [runs_cons, hrest]
            simp [hc, hd, firstRun, List.takeWhile_cons_of_pos, ih]
        · rw [runs_cons]
          simp [hc, hd, firstRun, List.takeWhile_cons_of_neg]
    · rw [runs_cons]
      simp only [hc, if_neg, Bool.false_eq_true, not_false_iff]
      rw [ih]
      simp [firstRun, hc]

lemma trimL_eq_nil_all_space {l : List Char} (h : trimL l = []) :
    ∀ c ∈ l, isPySpace c := by
  intro c hc
  unfold trimL at h
  rw [List.rdropWhile_eq_nil_iff] at h
  rcases (List.takeWhile_append_dropWhile (p := isPySpace) (l := l)) ▸ hc with hmem
  rcases List.mem_append.mp hmem with h1 | h2
  · exact List.mem_takeWhile_imp h1
  · exact h c h2

lemma pySplitDotSpace_no_dot {l : List Char} (h : '.' ∉ l) :
    pySplitDotSpace l = [l] := by
  induction l with
  | nil => rfl
  | cons c rest ih =>
    have hc : c ≠ '.' := fun hcc => h (hcc ▸ List.mem_cons_self c rest)
    have hrest : '.' ∉ rest := fun hr => h (List.mem_cons_of_mem c hr)
    cases rest with
    | nil => rfl
    | cons d rest' =>
      have : ¬ (c = '.' ∧ d = ' ') := fun hcd => hc hcd.1
      simp [pySplitDotSpace, this, ih hrest, consHead]

lemma traverseOption_eq_some {α β : Type} (f : α → Option β) (g : α → β)
    (l : List α) (h : ∀ a ∈ l, f a = some (g a)) :
    traverseOption f l = some (l.map g) := by
  induction l with
  | nil => rfl
  | cons a as ih =>
    have ha := h a (List.mem_cons_self a as)
    have has := ih (fun x hx => h x (List.mem_cons_of_mem a hx))
    simp [traverseOption, ha, has]

lemma collapseWs_all_space_is_blank :
    ∀ l : List Char, (collapseWs l).all (fun c => !isPySpace c || c = ' ') := by
  intro l
  induction l with
  | nil => rfl
  | cons a cs ih =>
    cases cs with
    | nil =>
      by_cases ha : isPySpace a <;> simp [collapseWs, ha]
    | cons b rest =>
      by_cases hab : isPySpace a && isPySpace b
      · simpa [collapseWs, hab] using ih
      · rw [collapseWs]
        simp only [hab, if_neg, Bool.false_eq_true, not_false_iff, List.all_cons]
        refine Bool.and_eq_true_iff.mpr ⟨?_, ih⟩
        by_cases ha : isPySpace a <;> simp [ha]

lemma collapseWs_ne_nil : ∀ (b : Char) (rest : List Char),
    collapseWs (b :: rest) ≠ [] := by
  intro b rest
  induction rest generalizing b with
  | nil => by_cases hb : isPySpace b <;> simp [collapseWs, hb]
  | cons c rest' ih =>
    by_cases hbc : isPySpace b && isPySpace c
    · rw [collapseWs]; simpa [hbc] using ih c
    · rw [collapseWs]; simp [hbc]

lemma collapseWs_head_not_space {b : Char} (rest : List Char)
    (hb : ¬ isPySpace b) :
    (collapseWs (b :: rest)).head? = some b := by
  cases rest with
  | nil => simp [collapseWs, hb]
  | cons c rest' =>
    have : (isPySpace b && isPySpace c) = false := by simp [hb]
    rw [collapseWs]
    simp [this, hb]

lemma collapseWs_chain' :
    ∀ l : List Char,
      (collapseWs l).Chain' (fun a b => ¬(isPySpace a = true ∧ isPySpace b = true)) := by
  intro l
  induction l with
  | nil => exact List.chain'_nil
  | cons a cs ih =>
    cases cs with
    | nil =>
      by_cases ha : isPySpace a <;> simp [collapseWs, ha]
    | cons b rest =>
      by_cases hab : isPySpace a && isPySpace b
      · rw [collapseWs]; simpa [hab] using ih
      · rw [collapseWs]
        simp only [hab, if_neg, Bool.false_eq_true, not_false_iff]
        rw [List.chain'_cons']
        refine ⟨?_, ih⟩
        intro y hy
        by_cases ha : isPySpace a
        · have hb : ¬ isPySpace b := by
            intro hb
            exact hab (by simp [ha, hb])
          rw [collapseWs_head_not_space rest hb] at hy
          cases hy
          simp [hb]
        · simp [ha]

lemma collapseWs_getLast_not_space :
    ∀ l : List Char, (∀ c, l.getLast? = some c → ¬ isPySpace c) →
      (collapseWs l).getLast?.all (fun c => !isPySpace c) := by
  intro l
  induction l with
  | nil => intro _; rfl
  | cons a cs ih =>
    intro h
    cases cs with
    | nil =>
      have ha : ¬ isPySpace a := h a rfl
      simp [collapseWs, ha]
    | cons b rest =>
      have h' : ∀ c, (b :: rest).getLast? = some c → ¬ isPySpace c := by
        intro c hc
        exact h c (by rwa [List.getLast?_cons_cons])
      by_cases hab : isPySpace a && isPySpace b
      · rw [collapseWs]; simpa [hab] using ih h'
      · rw [collapseWs]
        simp only [hab, if_neg, Bool.false_eq_true, not_false_iff]
        obtain ⟨y, m', hm⟩ : ∃ y m', collapseWs (b :: rest) = y :: m' := by
          cases hcol : collapseWs (b :: rest) with
          | nil => exact absurd hcol (collapseWs_ne_nil b rest)
          | cons y m' => exact ⟨y, m', rfl⟩
        rw [hm, List.getLast?_cons_cons, ← hm]
        exact ih h'

lemma head?_dropWhile_not (p : Char → Bool) :
    ∀ l : List Char, ((l.dropWhile p).head?).all (fun c => !p c) := by
  intro l
  induction l with
  | nil => rfl
  | cons a l ih =>
    by_cases ha : p a
    · simpa [List.dropWhile_cons, ha] using ih
    · simp [List.dropWhile_cons, ha]

lemma trimL_head_not_space (l : List Char) :
    (trimL l).head?.all (fun c => !isPySpace c) := by
  cases htr : trimL l with
  | nil => rfl
  | cons c cs =>
    have hpre : (c :: cs) <+: l.dropWhile isPySpace := htr ▸ List.rdropWhile_prefix _ _
    obtain ⟨t, ht⟩ := hpre
    have hhead : (l.dropWhile isPySpace).head? = some c := by rw [← ht]; rfl
    have hall := head?_dropWhile_not isPySpace l
    rw [hhead] at hall
    simpa using hall

lemma trimL_getLast_not_space {l : List Char} {c : Char}
    (h : (trimL l).getLast? = some c) : ¬ isPySpace c := by
  have hne : trimL l ≠ [] := by
    intro hnil
    rw [hnil] at h
    exact Option.noConfusion h
  have hlast := List.getLast?_eq_getLast_of_ne_nil hne
  rw [h] at hlast
  have hc : c = (trimL l).getLast hne := Option.some.inj hlast
  rw [hc]
  exact List.rdropWhile_last_not _ _ hne

lemma collapse_trim_head_not_space (l : List Char) :
    (collapseWs (trimL l)).head?.all (fun c => !isPySpace c) := by
  cases htr : trimL l with
  | nil => rfl
  | cons c cs =>
    have hc : ¬ isPySpace c := by
      have := trimL_head_not_space l
      rw [htr] at this
      simpa using this
    rw [collapseWs_head_not_space cs hc]
    simpa using hc

lemma collapse_trim_getLast_not_space (l : List Char) :
    (collapseWs (trimL l)).getLast?.all (fun c => !isPySpace c) := by
  exact collapseWs_getLast_not_space (trimL l) (fun c hc => trimL_getLast_not_space hc)

/-- The stable sort leaves the elements of any fixed score in their original
relative order: filtering the sorted list to one score value gives exactly the
filtering of the input list. -/
lemma insertionSort_stable_filter (l : List (String × ℚ)) (q : ℚ) :
    (List.insertionSort scoreGE l).filter (fun p => decide (p.2 = q)) =
      l.filter (fun p => decide (p.2 = q)) := by
  set pr : String × ℚ → Bool := fun p => decide (p.2 = q) with hpr
  have hmemq : ∀ x ∈ l.filter pr, pr x = true := fun x hx => (List.mem_filter.mp hx).2
  have hpair : (l.filter pr).Pairwise scoreGE := by
    refine List.pairwise_of_forall_mem_list ?_
    intro a ha b hb
    have ha2 : a.2 = q := by simpa [hpr] using (List.mem_filter.mp ha).2
    have hb2 : b.2 = q := by simpa [hpr] using (List.mem_filter.mp hb).2
    unfold scoreGE
    rw [ha2, hb2]
  have hsub : (l.filter pr).Sublist (List.insertionSort scoreGE l) :=
    List.sublist_insertionSort hpair (List.filter_sublist l)
  have hsub2 : (l.filter pr).Sublist ((List.insertionSort scoreGE l).filter pr) := by
    have h2 := hsub.filter pr
    rwa [List.filter_filter, show (fun a => pr a && pr a) = pr from by
      funext a; cases pr a <;> rfl] at h2
  have hperm : ((List.insertionSort scoreGE l).filter pr).Perm (l.filter pr) :=
    (List.perm_insertionSort scoreGE l).filter pr
  exact (hsub2.eq_of_length hperm.length_eq.symm).symm

lemma traverseOption_isSome {α β : Type} (f : α → Option β) (l : List α)
    (h : ∀ a ∈ l, (f a).isSome) : (traverseOption f l).isSome := by
  induction l with
  | nil => rfl
  | cons a as ih =>
    have ha := h a (List.mem_cons_self a as)
    have has := ih (fun x hx => h x (List.mem_cons_of_mem a hx))
    unfold traverseOption
    cases hfa : f a with
    | none => rw [hfa] at ha; exact absurd ha (by simp)
    | some b =>
      cases hrest : traverseOption f as with
      | none => rw [hrest] at has; exact absurd has (by simp)
      | some bs => simp

/-- The sampling arithmetic is always in range: with `0 < t`, `t < n` and
`i < t`, the index `i * (n / t)` is below `n`. -/
lemma sample_index_lt {n t i : ℕ} (ht : 0 < t) (htn : t < n) (hi : i < t) :
    i * (n / t) < n := by
  have hq1 : 1 ≤ n / t := (Nat.one_le_div_iff ht).mpr (le_of_lt htn)
  have h1 : i * (n / t) ≤ (t - 1) * (n / t) :=
    Nat.mul_le_mul_right _ (by omega)
  have h2 : (t - 1) * (n / t) = t * (n / t) - 1 * (n / t) := by
    rw [← Nat.sub_mul]
  have h3 : t * (n / t) ≤ n := by
    rw [Nat.mul_comm]; exact Nat.div_mul_le_self n t
  omega

/-- Claim C3, counterexample: resolution is not always strictly positive — the
input `"0"` resolves to `0`. -/
theorem C3_counterexample : ¬ (0 < parse_summary_length_text "0") := by decide

/-- Claim C3 (amended): resolution is total over strings — the embedding is a
total function returning a natural number — and the result is strictly
positive whenever the first contiguous digit run of the input (if any) does
not parse to zero; only a first digit run of zeros yields the value 0. -/
theorem C3_resolution_total_positive (s : String)
    (h : (firstDigitRun s.data).map digitsToNat ≠ some 0) :
    0 < parse_summary_length_text s := by
  unfold parse_summary_length_text
  split_ifs with h1 h2 h3
  · norm_num
  · norm_num
  · norm_num
  · cases hr : runs Char.isDigit s.data with
    | nil => norm_num
    | cons n rest =>
      have hfr : firstDigitRun s.data = some n := by
        unfold firstDigitRun
        rw [← head?_runs, hr]
        rfl
      rw [hfr] at h
      have : digitsToNat n ≠ 0 := by
        intro h0
        apply h
        simp [h0]
      exact Nat.pos_of_ne_zero this

/-- Claim C3, witness: at the concrete input `"100 words"` the hypothesis
holds and the resolver output is positive. -/
theorem C3_witness :
    (firstDigitRun "100 words".data).map digitsToNat ≠ some 0 ∧
      0 < parse_summary_length_text "100 words" :=
  ⟨by decide, C3_resolution_total_positive "100 words" (by decide)⟩

/-- Claim C4, counterexample: the code never trims its input, so the claimed
reference definition (which trims before the case-insensitive compare)
disagrees with the code at `" short "`. -/
theorem C4_counterexample :
    parse_summary_length_text " short " = 200 ∧ resolveSpec " short " = 75 := by
  constructor <;> decide

/-- Claim C4 (amended): with the trimming step removed from the reference
definition, the resolver matches it on every input string, and all six
enumerated examples hold. -/
theorem C4_resolver_matches_reference :
    (∀ s, parse_summary_length_text s = resolveSpecNoTrim s) ∧
      parse_summary_length_text "short" = 75 ∧
      parse_summary_length_text "Medium" = 200 ∧
      parse_summary_length_text "long" = 400 ∧
      parse_summary_length_text "100" = 100 ∧
      parse_summary_length_text "100 words" = 100 ∧
      parse_summary_length_text "gibberish" = 200 := by
  refine ⟨?_, by decide, by decide, by decide, by decide, by decide, by decide⟩
  intro s
  unfold parse_summary_length_text resolveSpecNoTrim firstDigitRun
  have hr := head?_runs Char.isDigit s.data
  cases hruns : runs Char.isDigit s.data with
  | nil =>
    rw [hruns] at hr
    simp only [List.head?_nil] at hr
    rw [← hr]
  | cons n rest =>
    rw [hruns] at hr
    simp only [List.head?_cons] at hr
    rw [← hr]

/-- Claim C5, counterexample: transcript-mode does not return an error string
for an empty transcript — it returns the empty input unchanged. -/
theorem C5_counterexample :
    generate_summary_youtube "" 200 = some "" ∧
      ("" : String) ≠ "Error: No text content provided" := by
  constructor <;> decide

/-- Claim C5 (amended): text-mode returns exactly
`"Error: No text content provided"` for every empty or whitespace-only input;
transcript-mode returns the transcript text unchanged (not an error string)
when it is empty or whitespace-only. -/
theorem C5_empty_input_behaviour :
    (∀ t len, pyStrip t = "" → summarize_text_content t len =
      "Error: No text content provided") ∧
    (∀ t tw, pyStrip t = "" → generate_summary_youtube t tw = some t) := by
  constructor
  · intro t len h
    unfold summarize_text_content
    rw [if_pos (Or.inr h)]
  · intro t tw h
    have hdata : trimL t.data = [] := congrArg String.data h
    have hall : ∀ c ∈ t.data, isPySpace c := trimL_eq_nil_all_space hdata
    have hdot : '.' ∉ t.data := fun hmem => absurd (hall '.' hmem) (by decide)
    have hsent : ytSentences t = [t] := by
      unfold ytSentences
      rw [pySplitDotSpace_no_dot hdot]
      rfl
    simp [generate_summary_youtube, hsent]

/-- Claim C5, witness: a whitespace-only input exercises both parts. -/
theorem C5_witness :
    summarize_text_content "   " "medium" = "Error: No text content provided" ∧
      generate_summary_youtube "   " 5 = some "   " :=
  ⟨C5_empty_input_behaviour.1 "   " "medium" (by decide),
   C5_empty_input_behaviour.2 "   " 5 (by decide)⟩

/-- Claim C6: for every non-whitespace input whose cleaned text segments into
at most two sentences, or whose cleaned word count is at most the resolved
target, `summarize_text_content` returns the cleaned input unchanged. -/
theorem C6_short_input_returned_cleaned (t len : String)
    (hne : pyStrip t ≠ "")
    (hshort : (tmSentences (clean_text_content t)).length ≤ 2 ∨
      (tmWords (clean_text_content t)).length ≤ parse_summary_length_text len) :
    summarize_text_content t len = clean_text_content t := by
  unfold summarize_text_content
  rw [if_neg (by rintro (rfl | h); exacts [hne rfl, hne h])]
  unfold generate_summary_text
  by_cases h1 : (tmSentences (clean_text_content t)).length ≤ 2
  · rw [if_pos h1]
  · rw [if_neg h1, if_pos (hshort.resolve_left h1)]

/-- Claim C6, witness: summarizing an already-short text returns it unchanged. -/
theorem C6_witness :
    pyStrip "Hello world" ≠ "" ∧
      (tmSentences (clean_text_content "Hello world")).length ≤ 2 ∧
      summarize_text_content "Hello world" "medium" =
        clean_text_content "Hello world" :=
  ⟨by decide, by decide,
   C6_short_input_returned_cleaned "Hello world" "medium" (by decide)
     (Or.inl (by decide))⟩

/-- Claim C9, counterexample: the underscore is kept by the code (it is a
`\w` word character) although it is neither alphanumeric, nor whitespace, nor
one of the punctuation characters the claim allows. -/
theorem C9_counterexample :
    clean_text_content "_" = "_" ∧
      ('_'.isAlphanum || isPySpace '_' || '_' = '.' || '_' = ',' || '_' = '!' ||
        '_' = '?' || '_' = ';' || '_' = ':' || '_' = '-' || '_' = '(' ||
        '_' = ')') = false := by
  constructor <;> decide

/-- Claim C9 (amended): `clean_text_content` first trims and collapses every
whitespace run of the input to a single space — the intermediate contains no
two adjacent whitespace characters, every whitespace character in it is a
plain space, and it neither starts nor ends with whitespace — and then removes
every character that is not alphanumeric, underscore, whitespace, or one of
`. , ! ? ; : - ( )`; every character of the output lies in that class. -/
theorem C9_normalizer_pipeline (s : String) :
    clean_text_content s = ⟨(collapseWs (trimL s.data)).filter isKeptChar⟩ ∧
    (clean_text_content s).data.all isKeptChar = true ∧
    (collapseWs (trimL s.data)).Chain'
      (fun a b => ¬(isPySpace a = true ∧ isPySpace b = true)) ∧
    (collapseWs (trimL s.data)).all (fun c => !isPySpace c || c = ' ') = true ∧
    (collapseWs (trimL s.data)).head?.all (fun c => !isPySpace c) = true ∧
    (collapseWs (trimL s.data)).getLast?.all (fun c => !isPySpace c) = true := by
  refine ⟨rfl, ?_, collapseWs_chain' _, collapseWs_all_space_is_blank _,
    collapse_trim_head_not_space _, collapse_trim_getLast_not_space _⟩
  rw [List.all_eq_true]
  intro c hc
  exact List.of_mem_filter hc

lemma qAdd_eq (a b : ℚ) : qAdd a b = a + b := by
  unfold qAdd
  rw [Rat.mkRat_eq_div]
  have ha : ((a.den : ℚ)) ≠ 0 := by
    exact_mod_cast a.den_nz
  have hb : ((b.den : ℚ)) ≠ 0 := by
    exact_mod_cast b.den_nz
  conv_rhs => rw [← Rat.num_div_den a, ← Rat.num_div_den b]
  push_cast
  field_simp
  try ring

lemma qSub_eq (a b : ℚ) : qSub a b = a - b := by
  unfold qSub
  rw [Rat.mkRat_eq_div]
  have ha : ((a.den : ℚ)) ≠ 0 := by
    exact_mod_cast a.den_nz
  have hb : ((b.den : ℚ)) ≠ 0 := by
    exact_mod_cast b.den_nz
  conv_rhs => rw [← Rat.num_div_den a, ← Rat.num_div_den b]
  push_cast
  field_simp
  try ring

lemma qMul_eq (a b : ℚ) : qMul a b = a * b := by
  unfold qMul
  rw [Rat.mkRat_eq_div]
  have ha : ((a.den : ℚ)) ≠ 0 := by
    exact_mod_cast a.den_nz
  have hb : ((b.den : ℚ)) ≠ 0 := by
    exact_mod_cast b.den_nz
  conv_rhs => rw [← Rat.num_div_den a, ← Rat.num_div_den b]
  push_cast
  field_simp
  try ring

lemma mkRat_one_five : (mkRat 1 5 : ℚ) = 0.2 := by
  rw [Rat.mkRat_eq_div]
  norm_num

lemma mkRat_three_ten : (mkRat 3 10 : ℚ) = 0.3 := by
  rw [Rat.mkRat_eq_div]
  norm_num

/-- Claim C7: the scorer returns one score per sentence in the same order, and
the `i`-th score is `freq + bonus - penalty` where `freq` sums the frequency
table over the sentence's lowercased tokens, the bonus is `freq * 0.2` exactly
for the first or last position, and the penalty is `freq * 0.3` exactly below
5 tokens. -/
theorem C7_scorer_formula (sentences words : List String) :
    (score_sentences sentences words).length = sentences.length ∧
    ∀ i, i < sentences.length →
      (score_sentences sentences words).getD i 0 = specScore sentences words i := by
  constructor
  · simp [score_sentences, List.enum_length]
  · intro i hi
    have hgetE : sentences.getD i "" = sentences.get ⟨i, hi⟩ :=
      List.getD_eq_get sentences "" hi
    have hscore : (score_sentences sentences words).get? i =
        some ((fun p : ℕ × String =>
          let sentence_words := pySplitWs (pyLower p.2)
          let freq_score : ℕ := (sentence_words.map (wordFreq words)).sum
          let position_bonus : ℚ :=
            if p.1 = 0 ∨ p.1 = sentences.length - 1 then qMul (freq_score : ℚ) (mkRat 1 5)
            else 0
          let length_penalty : ℚ :=
            if sentence_words.length < 5 then qMul (freq_score : ℚ) (mkRat 3 10) else 0
          qSub (qAdd (freq_score : ℚ) position_bonus) length_penalty)
            (i, sentences.get ⟨i, hi⟩)) := by
      unfold score_sentences
      rw [List.get?_map, List.get?_enum, List.get?_eq_get hi]
      rfl
    rw [List.getD_eq_get?, hscore]
    simp only [Option.getD_some]
    unfold specScore sentFreq
    rw [hgetE]
    simp only [qSub_eq, qAdd_eq, qMul_eq, mkRat_one_five, mkRat_three_ten]

/-- Claim C7, witness: the scorer formula applied at index 0 of a concrete
input (first sentence: frequency 3, first-position bonus 0.6, short-sentence
penalty 0.9, score 2.7). -/
theorem C7_witness :
    0 < (["alpha beta gamma", "delta"] : List String).length ∧
      (score_sentences ["alpha beta gamma", "delta"]
          ["alpha", "beta", "alpha"]).getD 0 0 =
        specScore ["alpha beta gamma", "delta"] ["alpha", "beta", "alpha"] 0 :=
  ⟨by decide,
   (C7_scorer_formula ["alpha beta gamma", "delta"]
      ["alpha", "beta", "alpha"]).2 0 (by decide)⟩

/-- Claim C2: when selection occurs, the emitted sentence sequence is a
sublist of the original sentence sequence (original document order, indices
strictly increasing), equal-score pairs keep their original relative order
through the stable descending sort, and the returned summary is the emitted
sentences joined by single spaces. -/
theorem C2_emission_order_and_stability (text : String) (tw : ℕ)
    (h1 : 2 < (tmSentences text).length)
    (h2 : tw < (tmWords text).length) :
    (tmSummarySentences text tw).Sublist (tmSentences text) ∧
    (∀ q : ℚ, (tmSorted text).filter (fun p => decide (p.2 = q)) =
      (tmScored text).filter (fun p => decide (p.2 = q))) ∧
    generate_summary_text text tw =
      String.intercalate " " (tmSummarySentences text tw) := by
  refine ⟨List.filter_sublist _, fun q => insertionSort_stable_filter _ q, ?_⟩
  unfold generate_summary_text
  rw [if_neg (by omega), if_neg (by omega)]

/-- Claim C2, witness: a three-sentence input with a small target. -/
theorem C2_witness :
    2 < (tmSentences
      "alpha beta gamma delta. epsilon zeta eta theta. iota kappa lambda mu.").length ∧
    1 < (tmWords
      "alpha beta gamma delta. epsilon zeta eta theta. iota kappa lambda mu.").length ∧
    (tmSummarySentences
      "alpha beta gamma delta. epsilon zeta eta theta. iota kappa lambda mu." 1).Sublist
      (tmSentences
        "alpha beta gamma delta. epsilon zeta eta theta. iota kappa lambda mu.") :=
  ⟨by decide, by decide,
   (C2_emission_order_and_stability
     "alpha beta gamma delta. epsilon zeta eta theta. iota kappa lambda mu." 1
     (by decide) (by decide)).1⟩

/-- Claim C10: re-emission tests each original sentence for membership in the
selected-text list, so every occurrence of a selected text is emitted — the
emitted count of any selected text equals its count in the source — and on a
source with a duplicated high-scoring sentence the summary has strictly more
sentences than `target_sentence_count`. -/
theorem C10_duplicate_reemission :
    (∀ text tw s, (tmSummarySentences text tw).count s =
      if s ∈ tmSelected text tw then (tmSentences text).count s else 0) ∧
    tmTargetCount
      "alpha beta gamma delta epsilon. strange stray words here maybe. alpha beta gamma delta epsilon."
      1 <
    (tmSummarySentences
      "alpha beta gamma delta epsilon. strange stray words here maybe. alpha beta gamma delta epsilon."
      1).length := by
  constructor
  · intro text tw s
    by_cases hp : s ∈ tmSelected text tw
    · rw [if_pos hp]
      exact List.count_filter (by simpa [List.elem_iff] using hp)
    · rw [if_neg hp]
      refine List.count_eq_zero.mpr ?_
      intro hmem
      exact hp (List.elem_iff.mp (List.mem_filter.mp hmem).2)
  · decide

/-- The transcript-mode summarizer never returns `none`: every index the
sampling arithmetic produces is in range. -/
lemma generate_summary_youtube_isSome :
    ∀ text tw, (generate_summary_youtube text tw).isSome = true := by
  intro text tw
  unfold generate_summary_youtube
  by_cases h3 : (ytSentences text).length ≤ 3
  · simp [h3]
  · by_cases hw : (pySplitWs text).length ≤ tw
    · simp [h3, hw]
    · by_cases ht : ytTargetCount text tw < (ytSentences text).length
      · have hpos : 0 < ytTargetCount text tw := by unfold ytTargetCount; omega
        have hall : ∀ i ∈ List.range (ytTargetCount text tw),
            (((ytSentences text)[i *
              ((ytSentences text).length / ytTargetCount text tw)]?).isSome) = true := by
          intro i hi
          have hidx := sample_index_lt hpos ht (List.mem_range.mp hi)
          rw [List.getElem?_eq_getElem hidx]
          rfl
        have hsome := traverseOption_isSome
          (fun i => (ytSentences text)[i *
            ((ytSentences text).length / ytTargetCount text tw)]?)
          (List.range (ytTargetCount text tw)) hall
        obtain ⟨sel, hsel⟩ := Option.isSome_iff_exists.mp hsome
        simp [h3, hw, ht, hsel]
      · simp [h3, hw, ht]

/-- Claim C1, counterexample: there is no input on which the sampling access
goes out of range — transcript-mode summarization never hits `IndexError`
(the embedding never produces `none`). -/
theorem C1_counterexample :
    ¬ ∃ text tw, generate_summary_youtube text tw = none := by
  rintro ⟨text, tw, h⟩
  have hs := generate_summary_youtube_isSome text tw
  rw [h] at hs
  exact Bool.noConfusion hs

/-- Claim C1 (amended): for every input and target, when the sampling branch
is taken (`target_sentence_count < num_sentences`) every sampled index
`i * step` with `i < target_sentence_count` is strictly below the number of
sentences — `step * (target_sentence_count - 1) >= num_sentences` is
impossible, so the unguarded access never goes out of range. -/
theorem C1_sampling_in_range (text : String) (tw i : ℕ)
    (ht : ytTargetCount text tw < (ytSentences text).length)
    (hi : i < ytTargetCount text tw) :
    i * ((ytSentences text).length / ytTargetCount text tw) <
      (ytSentences text).length :=
  sample_index_lt (by unfold ytTargetCount; omega) ht hi

/-- Claim C1, witness: the 10-sentence, target-3 configuration samples index
`2 * 3 = 6 < 10`. -/
theorem C1_witness :
    ytTargetCount
      "s0 a b c d. s1 a b c d. s2 a b c d. s3 a b c d. s4 a b c d. s5 a b c d. s6 a b c d. s7 a b c d. s8 a b c d. s9 a b c d"
      17 <
      (ytSentences
        "s0 a b c d. s1 a b c d. s2 a b c d. s3 a b c d. s4 a b c d. s5 a b c d. s6 a b c d. s7 a b c d. s8 a b c d. s9 a b c d").length ∧
    2 < ytTargetCount
      "s0 a b c d. s1 a b c d. s2 a b c d. s3 a b c d. s4 a b c d. s5 a b c d. s6 a b c d. s7 a b c d. s8 a b c d. s9 a b c d"
      17 ∧
    2 * ((ytSentences
      "s0 a b c d. s1 a b c d. s2 a b c d. s3 a b c d. s4 a b c d. s5 a b c d. s6 a b c d. s7 a b c d. s8 a b c d. s9 a b c d").length /
        ytTargetCount
          "s0 a b c d. s1 a b c d. s2 a b c d. s3 a b c d. s4 a b c d. s5 a b c d. s6 a b c d. s7 a b c d. s8 a b c d. s9 a b c d"
          17) <
      (ytSentences
        "s0 a b c d. s1 a b c d. s2 a b c d. s3 a b c d. s4 a b c d. s5 a b c d. s6 a b c d. s7 a b c d. s8 a b c d. s9 a b c d").length :=
  ⟨by decide, by decide,
   C1_sampling_in_range
     "s0 a b c d. s1 a b c d. s2 a b c d. s3 a b c d. s4 a b c d. s5 a b c d. s6 a b c d. s7 a b c d. s8 a b c d. s9 a b c d"
     17 2 (by decide) (by decide)⟩

/-- Claim C8: in transcript-mode with more than 3 sentences, more words than
the target and more sentences than `target_sentence_count`, the code selects
exactly the sentences at indices `0, step, 2*step, ..., (t-1)*step` with
`step = n / t` (integer division), joins them with `". "` and appends a
trailing `"."` when the result does not already end with one. -/
theorem C8_even_sampling (text : String) (tw : ℕ)
    (h3 : 3 < (ytSentences text).length)
    (hw : tw < (pySplitWs text).length)
    (ht : ytTargetCount text tw < (ytSentences text).length) :
    generate_summary_youtube text tw = some (
      (fun summary => if pyEndsWithDot summary then summary else summary ++ ".")
        (String.intercalate ". " ((List.range (ytTargetCount text tw)).map
          (fun i => (ytSentences text).getD
            (i * ((ytSentences text).length / ytTargetCount text tw)) "")))) := by
  have hn3 : ¬ ((ytSentences text).length ≤ 3) := by omega
  have hnw : ¬ ((pySplitWs text).length ≤ tw) := by omega
  have hpos : 0 < ytTargetCount text tw := by unfold ytTargetCount; omega
  have hsel : traverseOption
      (fun i => (ytSentences text)[i *
        ((ytSentences text).length / ytTargetCount text tw)]?)
      (List.range (ytTargetCount text tw)) =
      some ((List.range (ytTargetCount text tw)).map
        (fun i => (ytSentences text).getD
          (i * ((ytSentences text).length / ytTargetCount text tw)) "")) := by
    apply traverseOption_eq_some
    intro i hi
    have hidx := sample_index_lt hpos ht (List.mem_range.mp hi)
    rw [List.getElem?_eq_getElem hidx, List.getD_eq_getElem _ _ hidx]
  simp only [generate_summary_youtube, hn3, hnw, ht, if_true, if_false,
    ite_true, ite_false, reduceIte]
  rw [hsel]

/-- Claim C8, witness: the 10-sentence example (`t = 3`, `step = 3`, indices
`[0, 3, 6]`) and the degenerate 7-sentence example (`t = 4`, `step = 1`,
indices `[0, 1, 2, 3]` — a prefix), with their exact output strings. -/
theorem C8_witness :
    3 < (ytSentences
      "s0 a b c d. s1 a b c d. s2 a b c d. s3 a b c d. s4 a b c d. s5 a b c d. s6 a b c d. s7 a b c d. s8 a b c d. s9 a b c d").length ∧
    17 < (pySplitWs
      "s0 a b c d. s1 a b c d. s2 a b c d. s3 a b c d. s4 a b c d. s5 a b c d. s6 a b c d. s7 a b c d. s8 a b c d. s9 a b c d").length ∧
    ytTargetCount
      "s0 a b c d. s1 a b c d. s2 a b c d. s3 a b c d. s4 a b c d. s5 a b c d. s6 a b c d. s7 a b c d. s8 a b c d. s9 a b c d"
      17 = 3 ∧
    generate_summary_youtube
      "s0 a b c d. s1 a b c d. s2 a b c d. s3 a b c d. s4 a b c d. s5 a b c d. s6 a b c d. s7 a b c d. s8 a b c d. s9 a b c d"
      17 = some "s0 a b c d. s3 a b c d. s6 a b c d." ∧
    ytTargetCount
      "t0 a b c d. t1 a b c d. t2 a b c d. t3 a b c d. t4 a b c d. t5 a b c d. t6 a b c d"
      20 = 4 ∧
    generate_summary_youtube
      "t0 a b c d. t1 a b c d. t2 a b c d. t3 a b c d. t4 a b c d. t5 a b c d. t6 a b c d"
      20 = some "t0 a b c d. t1 a b c d. t2 a b c d. t3 a b c d." :=
  ⟨by decide, by decide, by decide,
   (C8_even_sampling
     "s0 a b c d. s1 a b c d. s2 a b c d. s3 a b c d. s4 a b c d. s5 a b c d. s6 a b c d. s7 a b c d. s8 a b c d. s9 a b c d"
     17 (by decide) (by decide) (by decide)).trans (by decide),
   by decide,
   (C8_even_sampling
     "t0 a b c d. t1 a b c d. t2 a b c d. t3 a b c d. t4 a b c d. t5 a b c d. t6 a b c d"
     20 (by decide) (by decide) (by decide)).trans (by decide)⟩
